import Mathlib

/-!
# Verification of the `geng-tas` TAS controller (`src/lib.rs`)

A shallow embedding of the record/replay and state-checkpointing harness.

Conventions of the embedding:
* `f64` times (`time_scale`, `fixed_delta_time`, `acc_delta_time`, delta
  times) are modelled as exact rationals `ℚ`; no floating-point rounding is
  modelled.
* `usize` counters (`frame`, replay cursor fields, `frames`) are `ℕ`;
  `saturating_sub` is `Nat` subtraction, which saturates at `0`.
* `HashSet` fields (`pressed_keys`, `pressed_buttons`) are `Finset`s.
* File I/O is modelled by passing the outcome of the read/write (the parsed
  value, or an error) as an explicit argument; the persisted artifact of
  `save_run` is the structured `SavedTas` value itself (serde round-trips
  are lossless on these data).
* A Rust `panic` / `unwrap` / `expect` failure is modelled by returning
  `none` from an `Option`-valued embedding of the operation.
* The `geng` window handle, `framebuffer_size`, `show_ui` widget plumbing
  and the `window().set_pressed_keys/buttons` mirror calls are
  presentation-side effects with no influence on controller state and are
  not modelled.
-/

/-- Keyboard keys (`geng::Key`): the keys the controller inspects by name,
plus an `other` constructor for the remaining key codes. -/
inductive Key where
  | lalt
  | s
  | k
  | l
  | p
  | left
  | right
  | a
  | b
  | other (code : ℕ)
  deriving DecidableEq

/-- Mouse buttons (`geng::MouseButton`). -/
inductive MouseButton where
  | left
  | middle
  | right
  deriving DecidableEq

/-- Input events (`geng::Event`): the four variants the controller matches
on, plus `other` for the remaining variants (mouse move, wheel, …), which
the controller treats uniformly. Mouse positions are rational pairs. -/
inductive Event where
  | keyDown (key : Key)
  | keyUp (key : Key)
  | mouseDown (position : ℚ × ℚ) (button : MouseButton)
  | mouseUp (position : ℚ × ℚ) (button : MouseButton)
  | other (code : ℕ)
  deriving DecidableEq

/-- Rust `struct FrameInput<T>`: `inputs` are replayed for `frames` consecutive
simulation frames. -/
structure FrameInput (T : Type) where
  frames : ℕ
  inputs : List T
  deriving DecidableEq

/-- Rust `struct SavedTas<T>`: the persisted form of a run. -/
structure SavedTas (T : Type) where
  initial_state : T
  inputs : List (FrameInput Event)
  deriving DecidableEq

/-- Rust `struct Replay<T>`: the replay cursor. -/
structure Replay (T : Type) where
  /-- Current frame index. -/
  frame : ℕ
  /-- Current input index. -/
  input : ℕ
  /-- The amount of frames until next input should be taken. -/
  next_input : ℕ
  inputs : List (FrameInput T)
  deriving DecidableEq

/-- Rust `struct SaveState<T>`: one checkpoint. -/
structure SaveState (T : Type) where
  frame : ℕ
  inputs : List (FrameInput Event)
  pressed_keys : Finset Key
  pressed_buttons : Finset MouseButton
  initial_state : T
  state : T
  deriving DecidableEq

/-- Rust `trait Tasable` together with the `geng::State` callbacks the controller
forwards to the game (`handle_event`, `update`, `fixed_update`); `draw` is
presentation-only and omitted. `G` is the game type, `S` its `Saved` type. -/
structure Tasable (G S : Type) where
  save : G → S
  load : G → S → G
  handle_event : G → Event → G
  update : G → ℚ → G
  fixed_update : G → ℚ → G

/-- Rust `struct Tas<T>`: the controller state (window handle and framebuffer
size omitted, see the module header). -/
structure Tas (S G : Type) where
  game : G
  show_ui : Bool
  time_scale : ℚ
  paused : Bool
  auto_paused : Bool
  fixed_delta_time : ℚ
  saved_states : List (SaveState S)
  frame : ℕ
  inputs : List (FrameInput Event)
  save_file : String
  replay : Option (Replay Event)
  initial_state : S
  acc_delta_time : ℚ
  queued_inputs : List Event
  pressed_keys : Finset Key
  pressed_buttons : Finset MouseButton
  deriving DecidableEq

/-- The field initialisation of `Tas::new` (before `load_savestates` runs):
`paused = true`, `fixed_delta_time = 1.0`, empty log/store/queues, and
`initial_state = game.save()`. -/
def Tas.init {G S : Type} (T : Tasable G S) (game : G) : Tas S G where
  game := game
  show_ui := true
  time_scale := 1
  paused := true
  auto_paused := false
  fixed_delta_time := 1
  saved_states := []
  frame := 0
  inputs := []
  save_file := "tas.json"
  replay := none
  initial_state := T.save game
  acc_delta_time := 0
  queued_inputs := []
  pressed_keys := ∅
  pressed_buttons := ∅

/-- Rust `Tas::new`: field init followed by
`tas.load_savestates().expect("Failed to load saved states")`.
`startup` is the outcome of reading `savedstates.json`: `.ok states` when
the file parsed (a missing file is `.ok []`, since `load_savestates`
returns `Ok` with an empty store in that case), `.error e` when the file
was present but failed to deserialize, in which case `load_savestates`
returns `Err` and the `expect` in `new` aborts (modelled as `none`). -/
def Tas.new {G S : Type} (T : Tasable G S) (game : G)
    (startup : Except String (List (SaveState S))) : Option (Tas S G) :=
  match startup with
  | .error _ => none
  | .ok states => some { Tas.init T game with saved_states := states }

/-- Rust `Tas::save_state`: push a checkpoint of the current state, then persist
the whole store (`save_savestates`); a persistence error is only logged, so
the outcome `persist` does not influence the resulting state. -/
def Tas.save_state {G S : Type} (T : Tasable G S)
    (persist : Except String Unit) (s : Tas S G) : Tas S G :=
  let _ := persist
  { s with
    saved_states := s.saved_states ++ [{
      frame := s.frame
      inputs := s.inputs
      pressed_keys := s.pressed_keys
      pressed_buttons := s.pressed_buttons
      initial_state := s.initial_state
      state := T.save s.game }] }

/-- Rust `Tas::load_state`: first `self.replay.take()` (unconditionally stops
any replay), then, if `index` is in range, restore the checkpoint. -/
def Tas.load_state {G S : Type} (T : Tasable G S) (s : Tas S G)
    (index : ℕ) : Tas S G :=
  let s := { s with replay := none }
  match s.saved_states[index]? with
  | none => s
  | some st =>
    { s with
      frame := st.frame
      inputs := st.inputs
      pressed_keys := st.pressed_keys
      pressed_buttons := st.pressed_buttons
      initial_state := st.initial_state
      game := T.load s.game st.state }

/-- Rust `Tas::save_run`: the `SavedTas` value serialized to the run file.
(The file-creation/write outcome is tracked separately by the caller.) -/
def Tas.save_run {G S : Type} (s : Tas S G) : SavedTas S where
  initial_state := s.initial_state
  inputs := s.inputs

/-- Rust `Tas::load_run`. `parsed` is the outcome of opening and deserializing
the run file; both `?` operators fire before any field of `self` is
touched, so on error the state is returned unchanged together with the
propagated error. On success the subject is reset to the file's
`initial_state`, the counters/log/held sets are cleared and a fresh replay
cursor is installed. -/
def Tas.load_run {G S : Type} (T : Tasable G S)
    (parsed : Except String (SavedTas S)) (s : Tas S G) :
    Tas S G × Option String :=
  match parsed with
  | .error e => (s, some e)
  | .ok saved =>
    ({ s with
        game := T.load s.game saved.initial_state
        frame := 0
        queued_inputs := []
        inputs := []
        pressed_keys := ∅
        pressed_buttons := ∅
        replay := some {
          frame := 0
          input := 0
          next_input := ((saved.inputs.head?).map (fun i => i.frames)).getD 0
          inputs := saved.inputs } },
     none)

/-- The `delete_state` branch of `Tas::ui`:
`self.saved_states.remove(i)`. `Vec::remove` aborts when `i` is out of
range (modelled as `none`); the widget layer only produces in-range
indices. -/
def Tas.delete_state {G S : Type} (s : Tas S G) (index : ℕ) :
    Option (Tas S G) :=
  if index < s.saved_states.length then
    some { s with saved_states := s.saved_states.eraseIdx index }
  else
    none

/-- The body of the input-simulation loop of `Tas::next_frame`: update the
pressed-key/button sets from the event, then forward it to the game.
(The `window().set_pressed_*` mirror calls are presentation-side.) -/
def Tas.applyInput {G S : Type} (T : Tasable G S) (s : Tas S G)
    (e : Event) : Tas S G :=
  let s :=
    match e with
    | .keyDown key => { s with pressed_keys := insert key s.pressed_keys }
    | .keyUp key => { s with pressed_keys := s.pressed_keys.erase key }
    | .mouseDown _ button =>
        { s with pressed_buttons := insert button s.pressed_buttons }
    | .mouseUp _ button =>
        { s with pressed_buttons := s.pressed_buttons.erase button }
    | .other _ => s
  { s with game := T.handle_event s.game e }

/-- The record step of `Tas::next_frame` on the input log: if the newest
entry has exactly the drained inputs, extend it by one frame, else append a
fresh entry with `frames = 1`. -/
def Tas.recordStep (log : List (FrameInput Event)) (tick : List Event) :
    List (FrameInput Event) :=
  match log.getLast? with
  | some last =>
    if last.inputs = tick then
      log.dropLast ++ [{ frames := last.frames + 1, inputs := last.inputs }]
    else
      log ++ [{ frames := 1, inputs := tick }]
  | none => [{ frames := 1, inputs := tick }]

/-- The replay-cursor advance of `Tas::next_frame` (the
`if replay.input < replay.inputs.len()` block): decrement `next_input`
(saturating); at zero move to the next entry and reload `next_input` from
it when it exists; bump the replay frame counter. -/
def Tas.advanceCursor (r : Replay Event) : Replay Event :=
  if r.input < r.inputs.length then
    let ni := r.next_input - 1
    if ni = 0 then
      match r.inputs[r.input + 1]? with
      | some next =>
        { r with frame := r.frame + 1, input := r.input + 1,
                 next_input := next.frames }
      | none =>
        { r with frame := r.frame + 1, input := r.input + 1,
                 next_input := ni }
    else
      { r with frame := r.frame + 1, next_input := ni }
  else
    r

/-- Rust `Tas::next_frame`. In replay mode with an exhausted cursor:
`paused = true` and return immediately. Otherwise: simulate the frame's
inputs (from the replay entry or the drained queue), advance the cursor or
record the drained queue, then `game.update`, `game.fixed_update` (both
with `fixed_delta_time`) and `frame += 1`. -/
def Tas.next_frame {G S : Type} (T : Tasable G S) (s : Tas S G) :
    Tas S G :=
  match s.replay with
  | some r =>
    match r.inputs[r.input]? with
    | none => { s with paused := true }
    | some fi =>
      let s1 := fi.inputs.foldl (Tas.applyInput T) s
      let s2 := { s1 with replay := some (Tas.advanceCursor r) }
      { s2 with
        game := T.fixed_update (T.update s2.game s2.fixed_delta_time)
          s2.fixed_delta_time
        frame := s2.frame + 1 }
  | none =>
    let drained := s.queued_inputs
    let s1 := drained.foldl (Tas.applyInput T) s
    let s2 := { s1 with
      queued_inputs := []
      inputs := Tas.recordStep s1.inputs drained }
    { s2 with
      game := T.fixed_update (T.update s2.game s2.fixed_delta_time)
        s2.fixed_delta_time
      frame := s2.frame + 1 }

/-- The number of iterations of the `while sim_time >= fixed_delta_time`
loop of `Tas::fixed_update`: for `0 < d` the loop subtracts `d` until the
remainder drops below `d`, i.e. it runs `⌊sim / d⌋` times (`0` when
`sim < d`, in particular when `sim < 0`). For `d ≤ 0` the source loop would
never terminate once entered; host deltas are positive. -/
def Tas.emittedTicks (sim d : ℚ) : ℕ :=
  if 0 < d then (⌊sim / d⌋).toNat else 0

/-- Rust `Tas::fixed_update`: record the host's delta as `fixed_delta_time`
(every call, before the pause check), and while neither paused nor
auto-paused, run the accumulator loop: `sim_time` starts at
`acc_delta_time + delta_time * time_scale`, each iteration subtracts
`fixed_delta_time` and runs `next_frame`, and the remainder is stored back
into `acc_delta_time`. -/
def Tas.fixed_update {G S : Type} (T : Tasable G S) (s : Tas S G)
    (delta_time : ℚ) : Tas S G :=
  let s := { s with fixed_delta_time := delta_time }
  if s.paused || s.auto_paused then s
  else
    let sim := s.acc_delta_time + delta_time * s.time_scale
    let n := Tas.emittedTicks sim s.fixed_delta_time
    let s1 := (Tas.next_frame T)^[n] s
    { s1 with acc_delta_time := sim - n * s.fixed_delta_time }

/-- Rust `Tas::handle_event`. LAlt down/up toggles `auto_paused`; in capture
mode (`auto_paused`) key-down events dispatch tool commands — `S` saves
the run and `unwrap`s the result (an I/O failure aborts, modelled as
`none`; `persist` is the write outcome for this call), `K` saves a state,
`L` loads the newest state when one exists, `P` toggles pause, arrows
adjust `time_scale` — and every captured event is swallowed. Outside
capture mode, events are dropped while a replay is active, else queued. -/
def Tas.handle_event {G S : Type} (T : Tasable G S)
    (persist : Except String Unit) (s : Tas S G) (event : Event) :
    Option (Tas S G) :=
  let s :=
    if event = Event.keyDown Key.lalt then { s with auto_paused := true }
    else s
  let s :=
    if event = Event.keyUp Key.lalt then { s with auto_paused := false }
    else s
  if s.auto_paused then
    match event with
    | .keyDown key =>
      match key with
      | .s =>
        match persist with
        | .ok _ => some s
        | .error _ => none
      | .k => some (Tas.save_state T persist s)
      | .l =>
        if s.saved_states.isEmpty then
          some s
        else
          some (Tas.load_state T s (s.saved_states.length - 1))
      | .p => some { s with paused := !s.paused }
      | .left =>
        some { s with time_scale := max (s.time_scale - (5 / 100)) 0 }
      | .right =>
        some { s with time_scale := s.time_scale + (5 / 100) }
      | _ => some s
    | _ => some s
  else if s.replay.isSome then
    some s
  else
    some { s with queued_inputs := s.queued_inputs ++ [event] }

/-! ## Derived notions used to state the claims -/

/-- Tick-expansion of a run-length-coalesced input log: entry
`{frames, inputs}` stands for `frames` consecutive simulation frames, each
of which replays exactly `inputs`. -/
def Tas.expand {T : Type} : List (FrameInput T) → List (List T)
  | [] => []
  | fi :: rest => List.replicate fi.frames fi.inputs ++ Tas.expand rest

/-- Total number of simulation frames covered by a coalesced log. -/
def Tas.sumFrames {T : Type} : List (FrameInput T) → ℕ
  | [] => 0
  | fi :: rest => fi.frames + Tas.sumFrames rest

/-- The log produced by recording a given per-frame input sequence into an
empty log, one `Tas.recordStep` per frame. -/
def Tas.coalesce (ticks : List (List Event)) : List (FrameInput Event) :=
  ticks.foldl Tas.recordStep []

/-- The simulation-visible part of the controller state: the held-input
sets and the game. -/
def Tas.simOf {G S : Type} (s : Tas S G) :
    Finset Key × Finset MouseButton × G :=
  (s.pressed_keys, s.pressed_buttons, s.game)

/-- Overwrite the simulation-visible part of the controller state. -/
def Tas.setSim {G S : Type} (s : Tas S G)
    (x : Finset Key × Finset MouseButton × G) : Tas S G :=
  { s with pressed_keys := x.1, pressed_buttons := x.2.1, game := x.2.2 }

/-- Function `Tas.applyInput` restricted to the simulation-visible state. -/
def Tas.applyEventSim {G S : Type} (T : Tasable G S)
    (x : Finset Key × Finset MouseButton × G) (e : Event) :
    Finset Key × Finset MouseButton × G :=
  let x :=
    match e with
    | .keyDown key => (insert key x.1, x.2.1, x.2.2)
    | .keyUp key => (x.1.erase key, x.2.1, x.2.2)
    | .mouseDown _ button => (x.1, insert button x.2.1, x.2.2)
    | .mouseUp _ button => (x.1, x.2.1.erase button, x.2.2)
    | .other _ => x
  (x.1, x.2.1, T.handle_event x.2.2 e)

/-- One simulation frame on the simulation-visible state: apply the
frame's input events in order, then the game's `update` and
`fixed_update`, both with tick length `d`. -/
def Tas.simTick {G S : Type} (T : Tasable G S) (d : ℚ)
    (x : Finset Key × Finset MouseButton × G) (evs : List Event) :
    Finset Key × Finset MouseButton × G :=
  let y := evs.foldl (Tas.applyEventSim T) x
  (y.1, y.2.1, T.fixed_update (T.update y.2.2 d) d)

/-- Iterated `Tas.simTick` over a per-frame input sequence. -/
def Tas.foldTicks {G S : Type} (T : Tasable G S) (d : ℚ)
    (ticks : List (List Event))
    (x : Finset Key × Finset MouseButton × G) :
    Finset Key × Finset MouseButton × G :=
  ticks.foldl (Tas.simTick T d) x

/-- One recorded frame: the frame's events sit in `queued_inputs` (they
were pushed there by `handle_event` since the previous frame, and the
queue is drained at every frame) and `next_frame` runs in record mode. -/
def Tas.recordFrame {G S : Type} (T : Tasable G S) (tick : List Event)
    (s : Tas S G) : Tas S G :=
  Tas.next_frame T { s with queued_inputs := tick }

/-- Recording a whole run: one `Tas.recordFrame` per frame. -/
def Tas.recordRun {G S : Type} (T : Tasable G S)
    (ticks : List (List Event)) (s : Tas S G) : Tas S G :=
  ticks.foldl (fun s tick => Tas.recordFrame T tick s) s

/-- Feeding a sequence of host deltas to `Tas::fixed_update`. -/
def Tas.runDeltas {G S : Type} (T : Tasable G S) (s : Tas S G)
    (ds : List ℚ) : Tas S G :=
  ds.foldl (Tas.fixed_update T) s

/-! ## Concrete subjects used for witnesses and counterexamples -/

/-- A minimal deterministic subject: the game state is a counter, saving
is the identity, events and updates perturb the counter injectively. -/
def NumGame : Tasable ℕ ℕ where
  save := id
  load := fun _ st => st
  handle_event := fun g _ => 2 * g + 1
  update := fun g _ => g
  fixed_update := fun g _ => g + 1

/-- A subject that logs every `handle_event` call together with its frame
index (counted by `fixed_update`), to observe exactly when events reach
the game. -/
def LogGame : Tasable (ℕ × List (ℕ × Event)) (ℕ × List (ℕ × Event)) where
  save := id
  load := fun _ st => st
  handle_event := fun g e => (g.1, g.2 ++ [(g.1, e)])
  update := fun g _ => g
  fixed_update := fun g _ => (g.1 + 1, g.2)

/-! ## Reachability and the coalescing invariant -/

/-- A coalesced log is well-formed when no two consecutive entries carry
the same `inputs` sequence. -/
def NoDupRuns (log : List (FrameInput Event)) : Prop :=
  List.Chain' (fun a b => a.inputs ≠ b.inputs) log

/-- The coalescing invariant over a controller state: the live input log
and every checkpointed log are coalesced. -/
def Tas.LogInv {G S : Type} (s : Tas S G) : Prop :=
  NoDupRuns s.inputs ∧ ∀ st ∈ s.saved_states, NoDupRuns st.inputs

/-- Controller states reachable through the public operations, starting
from a fresh controller (`Tas::new` with an absent `savedstates.json`,
i.e. an empty checkpoint store; a malformed store file aborts startup
instead). I/O outcomes and loaded run files are arbitrary. -/
inductive Tas.Reachable {G S : Type} (T : Tasable G S) : Tas S G → Prop where
  | init (game : G) : Tas.Reachable T (Tas.init T game)
  | handle (s s' : Tas S G) (o : Except String Unit) (e : Event) :
      Tas.Reachable T s → Tas.handle_event T o s e = some s' →
      Tas.Reachable T s'
  | frame (s : Tas S G) :
      Tas.Reachable T s → Tas.Reachable T (Tas.next_frame T s)
  | fixed (s : Tas S G) (δ : ℚ) :
      Tas.Reachable T s → Tas.Reachable T (Tas.fixed_update T s δ)
  | save (s : Tas S G) (o : Except String Unit) :
      Tas.Reachable T s → Tas.Reachable T (Tas.save_state T o s)
  | load (s : Tas S G) (i : ℕ) :
      Tas.Reachable T s → Tas.Reachable T (Tas.load_state T s i)
  | run_load (s : Tas S G) (p : Except String (SavedTas S)) :
      Tas.Reachable T s → Tas.Reachable T ((Tas.load_run T p s).1)
  | del (s s' : Tas S G) (i : ℕ) :
      Tas.Reachable T s → Tas.delete_state s i = some s' →
      Tas.Reachable T s'

/-! ## Structural lemmas -/

theorem Tas.simOf_setSim {G S : Type} (s : Tas S G)
    (x : Finset Key × Finset MouseButton × G) :
    (Tas.setSim s x).simOf = x :=
  rfl

theorem Tas.setSim_setSim {G S : Type} (s : Tas S G)
    (x y : Finset Key × Finset MouseButton × G) :
    Tas.setSim (Tas.setSim s x) y = Tas.setSim s y :=
  rfl

theorem Tas.setSim_simOf {G S : Type} (s : Tas S G) :
    Tas.setSim s s.simOf = s :=
  rfl

theorem Tas.applyInput_eq {G S : Type} (T : Tasable G S) (s : Tas S G)
    (e : Event) :
    Tas.applyInput T s e = Tas.setSim s (Tas.applyEventSim T s.simOf e) := by
  cases e <;> rfl

theorem Tas.foldl_applyInput {G S : Type} (T : Tasable G S)
    (l : List Event) :
    ∀ s : Tas S G,
      l.foldl (Tas.applyInput T) s
        = Tas.setSim s (l.foldl (Tas.applyEventSim T) s.simOf) := by
  induction l with
  | nil => intro s; simpa using (Tas.setSim_simOf s).symm
  | cons e l ih =>
    intro s
    simp only [List.foldl_cons]
    rw [Tas.applyInput_eq, ih, Tas.simOf_setSim, Tas.setSim_setSim]

theorem Tas.next_frame_record {G S : Type} (T : Tasable G S) (s : Tas S G)
    (h : s.replay = none) :
    Tas.next_frame T s =
      { Tas.setSim s (Tas.simTick T s.fixed_delta_time s.simOf
          s.queued_inputs) with
        queued_inputs := []
        inputs := Tas.recordStep s.inputs s.queued_inputs
        frame := s.frame + 1 } := by
  simp only [Tas.next_frame, h, Tas.foldl_applyInput]
  rfl

theorem Tas.next_frame_replay {G S : Type} (T : Tasable G S) (s : Tas S G)
    (r : Replay Event) (fi : FrameInput Event)
    (h : s.replay = some r) (hfi : r.inputs[r.input]? = some fi) :
    Tas.next_frame T s =
      { Tas.setSim s (Tas.simTick T s.fixed_delta_time s.simOf fi.inputs)
          with
        replay := some (Tas.advanceCursor r)
        frame := s.frame + 1 } := by
  simp only [Tas.next_frame, h, hfi, Tas.foldl_applyInput]
  rfl

theorem Tas.next_frame_exhaust {G S : Type} (T : Tasable G S)
    (s : Tas S G) (r : Replay Event)
    (h : s.replay = some r) (hfi : r.inputs[r.input]? = none) :
    Tas.next_frame T s = { s with paused := true } := by
  simp only [Tas.next_frame, h, hfi]

/-! ## Coalescing: `recordStep`, `expand`, `coalesce` -/

theorem Tas.expand_append {T : Type} (l₁ l₂ : List (FrameInput T)) :
    Tas.expand (l₁ ++ l₂) = Tas.expand l₁ ++ Tas.expand l₂ := by
  induction l₁ with
  | nil => rfl
  | cons fi l ih => simp [Tas.expand, ih]

theorem Tas.recordStep_nil (tick : List Event) :
    Tas.recordStep [] tick = [{ frames := 1, inputs := tick }] :=
  rfl

theorem Tas.recordStep_extend (l : List (FrameInput Event))
    (last : FrameInput Event) (tick : List Event)
    (hEq : last.inputs = tick) :
    Tas.recordStep (l ++ [last]) tick
      = l ++ [{ frames := last.frames + 1, inputs := last.inputs }] := by
  rw [Tas.recordStep, List.getLast?_concat]
  simp [hEq, List.dropLast_concat]

theorem Tas.recordStep_push (l : List (FrameInput Event))
    (last : FrameInput Event) (tick : List Event)
    (hEq : last.inputs ≠ tick) :
    Tas.recordStep (l ++ [last]) tick
      = (l ++ [last]) ++ [{ frames := 1, inputs := tick }] := by
  rw [Tas.recordStep, List.getLast?_concat]
  simp [hEq]

theorem Tas.expand_recordStep (log : List (FrameInput Event))
    (tick : List Event) :
    Tas.expand (Tas.recordStep log tick) = Tas.expand log ++ [tick] := by
  rcases List.eq_nil_or_concat log with rfl | ⟨l, last, hlog⟩
  · simp [Tas.recordStep_nil, Tas.expand]
  · rw [List.concat_eq_append] at hlog
    subst hlog
    by_cases hEq : last.inputs = tick
    · rw [Tas.recordStep_extend l last tick hEq]
      rw [Tas.expand_append, Tas.expand_append]
      simp [Tas.expand, List.replicate_succ', hEq]
    · rw [Tas.recordStep_push l last tick hEq]
      rw [Tas.expand_append, Tas.expand_append]
      simp [Tas.expand]

theorem Tas.recordStep_frames_pos (log : List (FrameInput Event))
    (tick : List Event) (h : ∀ fi ∈ log, 1 ≤ fi.frames) :
    ∀ fi ∈ Tas.recordStep log tick, 1 ≤ fi.frames := by
  rcases List.eq_nil_or_concat log with rfl | ⟨l, last, hlog⟩
  · intro fi hfi
    rw [Tas.recordStep_nil] at hfi
    simp at hfi
    simp [hfi]
  · rw [List.concat_eq_append] at hlog
    subst hlog
    by_cases hEq : last.inputs = tick
    · rw [Tas.recordStep_extend l last tick hEq]
      intro fi hfi
      rcases List.mem_append.1 hfi with hl | hr
      · exact h fi (List.mem_append_left _ hl)
      · simp at hr
        simp [hr]
    · rw [Tas.recordStep_push l last tick hEq]
      intro fi hfi
      rcases List.mem_append.1 hfi with hl | hr
      · exact h fi hl
      · simp at hr
        simp [hr]

theorem Tas.recordStep_chain (log : List (FrameInput Event))
    (tick : List Event) (h : NoDupRuns log) :
    NoDupRuns (Tas.recordStep log tick) := by
  rcases List.eq_nil_or_concat log with rfl | ⟨l, last, hlog⟩
  · simp [Tas.recordStep_nil, NoDupRuns]
  · rw [List.concat_eq_append] at hlog
    subst hlog
    unfold NoDupRuns at h ⊢
    by_cases hEq : last.inputs = tick
    · rw [Tas.recordStep_extend l last tick hEq]
      rw [List.chain'_append] at h ⊢
      refine ⟨h.1, List.chain'_singleton _, ?_⟩
      intro a ha b hb
      simp at hb
      subst hb
      exact h.2.2 a ha last (by simp)
    · rw [Tas.recordStep_push l last tick hEq]
      rw [List.chain'_append]
      refine ⟨h, List.chain'_singleton _, ?_⟩
      intro a ha b hb
      rw [List.getLast?_concat] at ha
      simp at ha hb
      subst ha
      subst hb
      exact hEq

theorem Tas.expand_foldl_recordStep (ticks : List (List Event)) :
    ∀ log : List (FrameInput Event),
      Tas.expand (ticks.foldl Tas.recordStep log)
        = Tas.expand log ++ ticks := by
  induction ticks with
  | nil => intro log; simp
  | cons t ts ih =>
    intro log
    simp only [List.foldl_cons]
    rw [ih (Tas.recordStep log t), Tas.expand_recordStep]
    simp

theorem Tas.expand_coalesce (ticks : List (List Event)) :
    Tas.expand (Tas.coalesce ticks) = ticks := by
  rw [Tas.coalesce, Tas.expand_foldl_recordStep]
  rfl

theorem Tas.foldl_recordStep_frames_pos (ticks : List (List Event)) :
    ∀ log : List (FrameInput Event), (∀ fi ∈ log, 1 ≤ fi.frames) →
      ∀ fi ∈ ticks.foldl Tas.recordStep log, 1 ≤ fi.frames := by
  induction ticks with
  | nil => intro log h; simpa using h
  | cons t ts ih =>
    intro log h
    simp only [List.foldl_cons]
    exact ih _ (Tas.recordStep_frames_pos log t h)

theorem Tas.coalesce_frames_pos (ticks : List (List Event)) :
    ∀ fi ∈ Tas.coalesce ticks, 1 ≤ fi.frames :=
  Tas.foldl_recordStep_frames_pos ticks [] (by simp)

theorem Tas.length_expand {T : Type} (log : List (FrameInput T)) :
    (Tas.expand log).length = Tas.sumFrames log := by
  induction log with
  | nil => rfl
  | cons fi rest ih => simp [Tas.expand, Tas.sumFrames, ih]

theorem Tas.sumFrames_coalesce (ticks : List (List Event)) :
    Tas.sumFrames (Tas.coalesce ticks) = ticks.length := by
  rw [← Tas.length_expand, Tas.expand_coalesce]

/-! ## The replay run -/

theorem Tas.foldTicks_cons {G S : Type} (T : Tasable G S) (d : ℚ)
    (a : List Event) (M : List (List Event))
    (z : Finset Key × Finset MouseButton × G) :
    Tas.foldTicks T d (a :: M) z = Tas.foldTicks T d M (Tas.simTick T d z a) :=
  rfl

theorem Tas.sumFrames_cons {T : Type} (fi : FrameInput T)
    (rest : List (FrameInput T)) :
    Tas.sumFrames (fi :: rest) = fi.frames + Tas.sumFrames rest :=
  rfl

theorem Tas.expand_cons {T : Type} (fi : FrameInput T)
    (rest : List (FrameInput T)) :
    Tas.expand (fi :: rest)
      = List.replicate fi.frames fi.inputs ++ Tas.expand rest :=
  rfl

/-- Core replay lemma: while the cursor still has `next_input`
repetitions of entry `x` pending (and the remaining log is well-formed,
all entries covering at least one frame), the next
`next_input + sumFrames rest` calls of `next_frame` replay, frame for
frame, exactly the tick-expansion of the rest of the log; any prefix of
length `t` of that replay acts on the simulation-visible state exactly as
`foldTicks` on the corresponding expanded prefix. -/
theorem Tas.replay_run_prefix {G S : Type} (T : Tasable G S) (d : ℚ) :
    ∀ (t : ℕ) (s : Tas S G) (r : Replay Event) (x : FrameInput Event),
      s.replay = some r → s.fixed_delta_time = d →
      r.inputs[r.input]? = some x →
      1 ≤ r.next_input →
      (∀ fi ∈ r.inputs, 1 ≤ fi.frames) →
      t ≤ r.next_input + Tas.sumFrames (r.inputs.drop (r.input + 1)) →
      Tas.simOf ((Tas.next_frame T)^[t] s) =
        Tas.foldTicks T d
          ((List.replicate r.next_input x.inputs
            ++ Tas.expand (r.inputs.drop (r.input + 1))).take t)
          s.simOf := by
  intro t
  induction t with
  | zero =>
    intro s r x _ _ _ _ _ _
    rfl
  | succ t ih =>
    intro s r x hrep hfdt hx hni hpos hle
    obtain ⟨m, hm⟩ : ∃ m, r.next_input = m + 1 := ⟨r.next_input - 1, by omega⟩
    have hlt : r.input < r.inputs.length := (List.getElem?_eq_some.1 hx).1
    have hstep := Tas.next_frame_replay T s r x hrep hx
    have hsimstep : (Tas.next_frame T s).simOf
        = Tas.simTick T d s.simOf x.inputs := by
      rw [hstep, ← hfdt]
      rfl
    have hreps : (Tas.next_frame T s).replay
        = some (Tas.advanceCursor r) := by
      rw [hstep]
    have hfdts : (Tas.next_frame T s).fixed_delta_time = d := by
      rw [hstep]
      exact hfdt
    rw [Function.iterate_succ_apply]
    rcases Nat.eq_zero_or_pos m with hm0 | hm1
    · -- `next_input = 1`: the cursor moves to the next log entry
      subst hm0
      rcases hy : r.inputs[r.input + 1]? with _ | y
      · -- no next entry: this was the last replayed frame
        have hdrop : r.inputs.drop (r.input + 1) = [] :=
          List.drop_eq_nil_iff.2 (List.getElem?_eq_none_iff.1 hy)
        have ht0 : t = 0 := by
          rw [hm, hdrop] at hle
          simpa [Tas.sumFrames] using hle
        subst ht0
        rw [hm, hdrop]
        simp only [Function.iterate_zero_apply, List.append_nil,
          List.take_succ_cons, List.replicate_succ, List.replicate_zero,
          List.take_nil, Tas.foldTicks_cons]
        rw [hsimstep]
        rfl
      · -- a next entry `y` exists: reload the cursor from it
        obtain ⟨hlt2, hget⟩ := List.getElem?_eq_some.1 hy
        have hadv : Tas.advanceCursor r = ({ frame := r.frame + 1, input := r.input + 1, next_input := y.frames, inputs := r.inputs } : Replay Event) := by
          rw [Tas.advanceCursor, if_pos hlt, hm]
          simp [hy]
        have hdrop : r.inputs.drop (r.input + 1)
            = y :: r.inputs.drop (r.input + 2) := by
          rw [List.drop_eq_getElem_cons hlt2, hget]
        have hyf : 1 ≤ y.frames := hpos y (List.getElem?_mem hy)
        have h1 : (Tas.next_frame T s).replay = some ({ frame := r.frame + 1, input := r.input + 1, next_input := y.frames, inputs := r.inputs } : Replay Event) := by
          rw [hreps, hadv]
        have h6 : t ≤ y.frames + Tas.sumFrames (r.inputs.drop (r.input + 2)) := by
          rw [hm, hdrop, Tas.sumFrames_cons] at hle
          omega
        have hres := ih (Tas.next_frame T s)
          ({ frame := r.frame + 1, input := r.input + 1, next_input := y.frames, inputs := r.inputs } : Replay Event)
          y h1 hfdts hy hyf hpos h6
        rw [hres]
        show Tas.foldTicks T d ((List.replicate y.frames y.inputs
            ++ Tas.expand (r.inputs.drop (r.input + 2))).take t)
            (Tas.next_frame T s).simOf
          = _
        rw [hsimstep, hm, hdrop, Tas.expand_cons]
        simp only [List.replicate_succ, List.replicate_zero,
          List.nil_append, List.cons_append, List.take_succ_cons,
          Tas.foldTicks_cons]
    · -- `next_input ≥ 2`: stay on the same entry
      have hm' : m + 1 - 1 = m := by omega
      have hmne : ¬(m = 0) := by omega
      have hadv : Tas.advanceCursor r = ({ frame := r.frame + 1, input := r.input, next_input := m, inputs := r.inputs } : Replay Event) := by
        rw [Tas.advanceCursor, if_pos hlt, hm]
        simp [hm', hmne]
      have h1 : (Tas.next_frame T s).replay = some ({ frame := r.frame + 1, input := r.input, next_input := m, inputs := r.inputs } : Replay Event) := by
        rw [hreps, hadv]
      have h6 : t ≤ m + Tas.sumFrames (r.inputs.drop (r.input + 1)) := by
        rw [hm] at hle
        omega
      have hres := ih (Tas.next_frame T s)
        ({ frame := r.frame + 1, input := r.input, next_input := m, inputs := r.inputs } : Replay Event)
        x h1 hfdts hx hm1 hpos h6
      rw [hres]
      show Tas.foldTicks T d ((List.replicate m x.inputs
          ++ Tas.expand (r.inputs.drop (r.input + 1))).take t)
          (Tas.next_frame T s).simOf
        = _
      rw [hsimstep, hm]
      simp only [List.replicate_succ, List.cons_append,
        List.take_succ_cons, Tas.foldTicks_cons]

/-- Replaying from a freshly installed cursor (position `0`, `next_input`
taken from the head entry) follows the tick-expansion of the loaded log on
the simulation-visible state, for any prefix of the log's total frame
count. -/
theorem Tas.replay_loaded_run {G S : Type} (T : Tasable G S) (d : ℚ)
    (log : List (FrameInput Event)) (hpos : ∀ fi ∈ log, 1 ≤ fi.frames)
    (s : Tas S G)
    (hrep : s.replay = some ({ frame := 0, input := 0, next_input := ((log.head?).map (fun i => i.frames)).getD 0, inputs := log } : Replay Event))
    (hfdt : s.fixed_delta_time = d) :
    ∀ t ≤ Tas.sumFrames log,
      Tas.simOf ((Tas.next_frame T)^[t] s)
        = Tas.foldTicks T d ((Tas.expand log).take t) s.simOf := by
  intro t ht
  cases log with
  | nil =>
    have ht0 : t = 0 := by simpa [Tas.sumFrames] using ht
    subst ht0
    rfl
  | cons x L =>
    have hni : 1 ≤ x.frames := hpos x (by simp)
    exact Tas.replay_run_prefix T d t s
      ({ frame := 0, input := 0, next_input := (((x :: L).head?).map (fun i => i.frames)).getD 0, inputs := x :: L } : Replay Event)
      x hrep hfdt (by simp) hni hpos ht

/-! ## The recording run -/

theorem Tas.recordFrame_eq {G S : Type} (T : Tasable G S)
    (tick : List Event) (s : Tas S G) (h : s.replay = none) :
    Tas.recordFrame T tick s =
      { Tas.setSim s (Tas.simTick T s.fixed_delta_time s.simOf tick) with
        queued_inputs := []
        inputs := Tas.recordStep s.inputs tick
        frame := s.frame + 1 } := by
  have h' : ({ s with queued_inputs := tick } : Tas S G).replay = none := h
  rw [Tas.recordFrame, Tas.next_frame_record T _ h']
  rfl

theorem Tas.recordRun_spec {G S : Type} (T : Tasable G S) (d : ℚ)
    (ticks : List (List Event)) :
    ∀ s : Tas S G, s.replay = none → s.fixed_delta_time = d →
      (Tas.recordRun T ticks s).replay = none ∧
      (Tas.recordRun T ticks s).fixed_delta_time = d ∧
      (Tas.recordRun T ticks s).initial_state = s.initial_state ∧
      (Tas.recordRun T ticks s).inputs = ticks.foldl Tas.recordStep s.inputs ∧
      (Tas.recordRun T ticks s).simOf = Tas.foldTicks T d ticks s.simOf := by
  induction ticks with
  | nil =>
    intro s h hd
    exact ⟨h, hd, rfl, rfl, rfl⟩
  | cons t ts ih =>
    intro s h hd
    have hstep : Tas.recordRun T (t :: ts) s
        = Tas.recordRun T ts (Tas.recordFrame T t s) := rfl
    rw [hstep]
    have h1 := Tas.recordFrame_eq T t s h
    have hrep : (Tas.recordFrame T t s).replay = none := by rw [h1]; exact h
    have hfdt : (Tas.recordFrame T t s).fixed_delta_time = d := by
      rw [h1]; exact hd
    obtain ⟨a, b, c, dd, e⟩ := ih (Tas.recordFrame T t s) hrep hfdt
    refine ⟨a, b, ?_, ?_, ?_⟩
    · rw [c, h1]
      rfl
    · rw [dd, h1]
      rfl
    · rw [e, h1]
      have : Tas.simOf ({ Tas.setSim s (Tas.simTick T s.fixed_delta_time
          s.simOf t) with
          queued_inputs := []
          inputs := Tas.recordStep s.inputs t
          frame := s.frame + 1 } : Tas S G)
          = Tas.simTick T s.fixed_delta_time s.simOf t := rfl
      rw [this, hd]
      rfl

/-! ## Claim theorems -/

/-- C1 (record/replay equivalence): for every deterministic subject
(whose `load` restores exactly what `save` captured), recording a run of
`ticks` from a fresh recording state whose game is `g0` (empty log, empty
held sets, `initial_state = save g0`), saving it with `save_run`, loading
it with `load_run` into a controller with the same tick length, and
stepping `next_frame` the same number of frames reproduces, frame for
frame, the same `pressed_keys` and `pressed_buttons` sets, and the same
final `save()` output, as the original recording. -/
theorem c1_record_replay_equivalence {G S : Type} (T : Tasable G S)
    (hT : ∀ g g0 : G, T.load g (T.save g0) = g0)
    (ticks : List (List Event)) (d : ℚ) (g0 : G) (srec srep₀ : Tas S G)
    (hrec_replay : srec.replay = none) (hrec_fdt : srec.fixed_delta_time = d)
    (hrec_log : srec.inputs = []) (hrec_game : srec.game = g0)
    (hrec_init : srec.initial_state = T.save g0)
    (hrec_keys : srec.pressed_keys = ∅)
    (hrec_btns : srec.pressed_buttons = ∅)
    (hrep_fdt : srep₀.fixed_delta_time = d) :
    (∀ t ≤ ticks.length,
      ((Tas.next_frame T)^[t] (Tas.load_run T (Except.ok (Tas.save_run (Tas.recordRun T ticks srec))) srep₀).1).pressed_keys
          = (Tas.recordRun T (ticks.take t) srec).pressed_keys ∧
      ((Tas.next_frame T)^[t] (Tas.load_run T (Except.ok (Tas.save_run (Tas.recordRun T ticks srec))) srep₀).1).pressed_buttons
          = (Tas.recordRun T (ticks.take t) srec).pressed_buttons) ∧
    T.save ((Tas.next_frame T)^[ticks.length] (Tas.load_run T (Except.ok (Tas.save_run (Tas.recordRun T ticks srec))) srep₀).1).game
      = T.save (Tas.recordRun T ticks srec).game := by
  have hrecspec := Tas.recordRun_spec T d ticks srec hrec_replay hrec_fdt
  have hrun_init :
      (Tas.save_run (Tas.recordRun T ticks srec)).initial_state
        = T.save g0 := by
    show (Tas.recordRun T ticks srec).initial_state = T.save g0
    rw [hrecspec.2.2.1, hrec_init]
  have hrun_inputs : (Tas.save_run (Tas.recordRun T ticks srec)).inputs
      = Tas.coalesce ticks := by
    show (Tas.recordRun T ticks srec).inputs = Tas.coalesce ticks
    rw [hrecspec.2.2.2.1, hrec_log]
    rfl
  set srep := (Tas.load_run T (Except.ok
    (Tas.save_run (Tas.recordRun T ticks srec))) srep₀).1 with hsrep
  have hsrep_rep : srep.replay = some ({ frame := 0, input := 0, next_input := (((Tas.coalesce ticks).head?).map (fun i => i.frames)).getD 0, inputs := Tas.coalesce ticks } : Replay Event) := by
    rw [hsrep]
    show some ({ frame := 0, input := 0, next_input := (((Tas.save_run (Tas.recordRun T ticks srec)).inputs.head?).map (fun i => i.frames)).getD 0, inputs := (Tas.save_run (Tas.recordRun T ticks srec)).inputs } : Replay Event) = _
    rw [hrun_inputs]
  have hsrep_fdt : srep.fixed_delta_time = d := by
    rw [hsrep]
    exact hrep_fdt
  have hsrep_sim : srep.simOf
      = ((∅ : Finset Key), (∅ : Finset MouseButton), g0) := by
    rw [hsrep]
    show ((∅ : Finset Key), (∅ : Finset MouseButton),
      T.load srep₀.game (Tas.save_run (Tas.recordRun T ticks srec)).initial_state) = _
    rw [hrun_init, hT]
  have hsrec_sim : srec.simOf
      = ((∅ : Finset Key), (∅ : Finset MouseButton), g0) := by
    rw [Tas.simOf, hrec_keys, hrec_btns, hrec_game]
  have key : ∀ t ≤ ticks.length,
      Tas.simOf ((Tas.next_frame T)^[t] srep)
        = Tas.simOf (Tas.recordRun T (ticks.take t) srec) := by
    intro t ht
    have hlen := Tas.sumFrames_coalesce ticks
    have hrep_run := Tas.replay_loaded_run T d (Tas.coalesce ticks)
      (Tas.coalesce_frames_pos ticks) srep hsrep_rep hsrep_fdt t
      (by rw [hlen]; exact ht)
    rw [Tas.expand_coalesce] at hrep_run
    have hrec_t := (Tas.recordRun_spec T d (ticks.take t) srec
      hrec_replay hrec_fdt).2.2.2.2
    rw [hrep_run, hrec_t, hsrep_sim, hsrec_sim]
  refine ⟨fun t ht => ?_, ?_⟩
  · have h := key t ht
    exact ⟨congrArg (fun p => p.1) h, congrArg (fun p => p.2.1) h⟩
  · have h := key ticks.length le_rfl
    rw [List.take_length] at h
    exact congrArg (fun p => T.save p.2.2) h

/-- Witness for **C1**: a concrete two-frame recording with a held key,
replayed against a fresh subject, reproduces the held-key set after both
frames and the final `save()` output. -/
theorem c1_record_replay_equivalence_witness :
    ((Tas.next_frame NumGame)^[2] (Tas.load_run NumGame (Except.ok (Tas.save_run (Tas.recordRun NumGame [[Event.keyDown Key.a], [Event.keyDown Key.a]] { Tas.init NumGame 7 with paused := false }))) { Tas.init NumGame 999 with paused := false }).1).pressed_keys
        = (Tas.recordRun NumGame [[Event.keyDown Key.a], [Event.keyDown Key.a]] { Tas.init NumGame 7 with paused := false }).pressed_keys
      ∧ NumGame.save ((Tas.next_frame NumGame)^[2] (Tas.load_run NumGame (Except.ok (Tas.save_run (Tas.recordRun NumGame [[Event.keyDown Key.a], [Event.keyDown Key.a]] { Tas.init NumGame 7 with paused := false }))) { Tas.init NumGame 999 with paused := false }).1).game
        = NumGame.save (Tas.recordRun NumGame [[Event.keyDown Key.a], [Event.keyDown Key.a]] { Tas.init NumGame 7 with paused := false }).game := by
  have h := c1_record_replay_equivalence NumGame (fun _ _ => rfl)
    [[Event.keyDown Key.a], [Event.keyDown Key.a]] 1 7
    { Tas.init NumGame 7 with paused := false }
    { Tas.init NumGame 999 with paused := false }
    rfl rfl rfl rfl rfl rfl rfl rfl
  exact ⟨(h.1 2 (by decide)).1, h.2⟩

/-! ## The accumulator loop (`fixed_update`) -/

theorem Tas.next_frame_fdt {G S : Type} (T : Tasable G S) (s : Tas S G) :
    (Tas.next_frame T s).fixed_delta_time = s.fixed_delta_time := by
  rcases hrep : s.replay with _ | r
  · rw [Tas.next_frame_record T s hrep]
    rfl
  · rcases hx : r.inputs[r.input]? with _ | fi
    · rw [Tas.next_frame_exhaust T s r hrep hx]
    · rw [Tas.next_frame_replay T s r fi hrep hx]
      rfl

/-- In record mode (`replay = none`), `next_frame` advances the frame
counter and touches neither the pause flags, the clock configuration, nor
the accumulator; iterated `n` times it adds `n` frames. -/
theorem Tas.iterate_record_fields {G S : Type} (T : Tasable G S) (n : ℕ) :
    ∀ s : Tas S G, s.replay = none →
      ((Tas.next_frame T)^[n] s).replay = none ∧
      ((Tas.next_frame T)^[n] s).paused = s.paused ∧
      ((Tas.next_frame T)^[n] s).auto_paused = s.auto_paused ∧
      ((Tas.next_frame T)^[n] s).fixed_delta_time = s.fixed_delta_time ∧
      ((Tas.next_frame T)^[n] s).time_scale = s.time_scale ∧
      ((Tas.next_frame T)^[n] s).acc_delta_time = s.acc_delta_time ∧
      ((Tas.next_frame T)^[n] s).frame = s.frame + n := by
  induction n with
  | zero =>
    intro s h
    simpa using h
  | succ n ih =>
    intro s h
    rw [Function.iterate_succ_apply]
    have h1 := Tas.next_frame_record T s h
    have hrep : (Tas.next_frame T s).replay = none := by
      rw [h1]
      exact h
    obtain ⟨a, b, c, dd, e, f, g⟩ := ih (Tas.next_frame T s) hrep
    refine ⟨a, by rw [b, h1]; rfl, by rw [c, h1]; rfl, by rw [dd, h1]; rfl,
      by rw [e, h1]; rfl, by rw [f, h1]; rfl, ?_⟩
    rw [g, h1]
    show s.frame + 1 + n = s.frame + (n + 1)
    omega

/-- Unpaused record-mode `fixed_update`: the clock records the host delta
as the tick length, emits `emittedTicks` frames and stores the remainder
in the accumulator. -/
theorem Tas.fixed_update_record_spec {G S : Type} (T : Tasable G S)
    (s : Tas S G) (δ : ℚ)
    (hp : s.paused = false) (ha : s.auto_paused = false)
    (hr : s.replay = none) :
    (Tas.fixed_update T s δ).paused = false ∧
    (Tas.fixed_update T s δ).auto_paused = false ∧
    (Tas.fixed_update T s δ).replay = none ∧
    (Tas.fixed_update T s δ).time_scale = s.time_scale ∧
    (Tas.fixed_update T s δ).fixed_delta_time = δ ∧
    (Tas.fixed_update T s δ).frame = s.frame
      + Tas.emittedTicks (s.acc_delta_time + δ * s.time_scale) δ ∧
    (Tas.fixed_update T s δ).acc_delta_time
      = s.acc_delta_time + δ * s.time_scale
        - Tas.emittedTicks (s.acc_delta_time + δ * s.time_scale) δ * δ := by
  have hcond : (({ s with fixed_delta_time := δ } : Tas S G).paused
      || ({ s with fixed_delta_time := δ } : Tas S G).auto_paused) = false := by
    show (s.paused || s.auto_paused) = false
    rw [hp, ha]
    rfl
  have hr0 : ({ s with fixed_delta_time := δ } : Tas S G).replay = none := hr
  obtain ⟨a, b, c, dd, e, f, g⟩ := Tas.iterate_record_fields T
    (Tas.emittedTicks (s.acc_delta_time + δ * s.time_scale) δ)
    ({ s with fixed_delta_time := δ } : Tas S G) hr0
  rw [Tas.fixed_update]
  simp only [hcond, Bool.false_eq_true, if_false]
  exact ⟨b.trans hp, c.trans ha, a, e, dd, g, trivial⟩

/-- For a positive tick length and a nonnegative accumulated time, the
loop count of `fixed_update` is the unique `n` with
`n * d ≤ sim < (n + 1) * d`: exactly the number of times the `while` loop
subtracts `d`. -/
theorem Tas.emittedTicks_spec (sim d : ℚ) (hd : 0 < d) (hs : 0 ≤ sim) :
    (Tas.emittedTicks sim d : ℚ) * d ≤ sim ∧
    sim - (Tas.emittedTicks sim d : ℚ) * d < d := by
  have hdiv : (0 : ℚ) ≤ sim / d := div_nonneg hs hd.le
  have hfl : (0 : ℤ) ≤ ⌊sim / d⌋ := Int.floor_nonneg.2 hdiv
  have hcast : ((Tas.emittedTicks sim d : ℕ) : ℚ) = (⌊sim / d⌋ : ℚ) := by
    rw [Tas.emittedTicks, if_pos hd]
    exact_mod_cast Int.toNat_of_nonneg hfl
  constructor
  · rw [hcast]
    have h1 : (⌊sim / d⌋ : ℚ) ≤ sim / d := Int.floor_le _
    calc (⌊sim / d⌋ : ℚ) * d ≤ (sim / d) * d := by
          exact mul_le_mul_of_nonneg_right h1 hd.le
    _ = sim := div_mul_cancel₀ sim hd.ne'
  · rw [hcast]
    have h2 : sim / d < (⌊sim / d⌋ : ℚ) + 1 := Int.lt_floor_add_one _
    have h3 : sim < ((⌊sim / d⌋ : ℚ) + 1) * d := by
      have := mul_lt_mul_of_pos_right h2 hd
      rwa [div_mul_cancel₀ sim hd.ne'] at this
    nlinarith

theorem Tas.iterate_next_frame_fdt {G S : Type} (T : Tasable G S) (n : ℕ) :
    ∀ s : Tas S G,
      ((Tas.next_frame T)^[n] s).fixed_delta_time = s.fixed_delta_time := by
  induction n with
  | zero => intro s; rfl
  | succ n ih =>
    intro s
    rw [Function.iterate_succ_apply, ih, Tas.next_frame_fdt]

/-- Feeding `k` equal deltas `d` (matching the current tick length) to an
unpaused recording controller: some total `F` of frames is emitted, the
clock identity `F * d + acc' = k * (d * c) + acc` holds, and the
accumulator remainder stays in `[0, d)`. -/
theorem Tas.runDeltas_const {G S : Type} (T : Tasable G S) (d c : ℚ)
    (hd : 0 < d) (hc : 0 ≤ c) :
    ∀ (k : ℕ) (s : Tas S G),
      s.paused = false → s.auto_paused = false → s.replay = none →
      s.fixed_delta_time = d → s.time_scale = c →
      0 ≤ s.acc_delta_time → s.acc_delta_time < d →
      ∃ F : ℕ,
        (Tas.runDeltas T s (List.replicate k d)).frame = s.frame + F ∧
        (F : ℚ) * d + (Tas.runDeltas T s (List.replicate k d)).acc_delta_time
          = (k : ℚ) * (d * c) + s.acc_delta_time ∧
        0 ≤ (Tas.runDeltas T s (List.replicate k d)).acc_delta_time ∧
        (Tas.runDeltas T s (List.replicate k d)).acc_delta_time < d := by
  intro k
  induction k with
  | zero =>
    intro s _ _ _ _ _ h0 h1
    exact ⟨0, by simp [Tas.runDeltas], by simp [Tas.runDeltas], h0, h1⟩
  | succ k ih =>
    intro s hp ha hr hf ht h0 h1
    have hstep : Tas.runDeltas T s (List.replicate (k + 1) d)
        = Tas.runDeltas T (Tas.fixed_update T s d) (List.replicate k d) := by
      rw [List.replicate_succ]
      rfl
    obtain ⟨P1, P2, P3, P4, P5, P6, P7⟩ :=
      Tas.fixed_update_record_spec T s d hp ha hr
    have hsim0 : 0 ≤ s.acc_delta_time + d * s.time_scale := by
      have : 0 ≤ d * s.time_scale := mul_nonneg hd.le (ht ▸ hc)
      linarith
    obtain ⟨hA, hB⟩ :=
      Tas.emittedTicks_spec (s.acc_delta_time + d * s.time_scale) d hd hsim0
    set n := Tas.emittedTicks (s.acc_delta_time + d * s.time_scale) d with hn
    have hacc0 : 0 ≤ (Tas.fixed_update T s d).acc_delta_time := by
      rw [P7]
      linarith
    have hacc1 : (Tas.fixed_update T s d).acc_delta_time < d := by
      rw [P7]
      linarith
    obtain ⟨F, Q1, Q2, Q3, Q4⟩ := ih (Tas.fixed_update T s d) P1 P2 P3 P5
      (P4.trans ht) hacc0 hacc1
    rw [hstep]
    refine ⟨n + F, ?_, ?_, Q3, Q4⟩
    · rw [Q1, P6]
      omega
    · rw [P7, ht] at Q2
      push_cast
      linear_combination Q2

/-- C2, counterexample: the claim as stated fails on the code because
`fixed_update` re-records `fixed_delta_time` from each call's delta. With
tick length `1`, `time_scale = 1` and the single delta `2`, the scaled sum
is `2 * fixed_delta_time`, so the claim demands `2` emitted frames; the
code records `fixed_delta_time := 2` and emits exactly one. -/
theorem c2_counterexample :
    ((([2] : List ℚ).map (fun δ => δ * ({ Tas.init NumGame 0 with paused := false } : Tas ℕ ℕ).time_scale)).sum
        = 2 * ({ Tas.init NumGame 0 with paused := false } : Tas ℕ ℕ).fixed_delta_time)
    ∧ (Tas.runDeltas NumGame { Tas.init NumGame 0 with paused := false } [2]).frame = 1
    ∧ ¬ (Tas.runDeltas NumGame { Tas.init NumGame 0 with paused := false } [2]).frame = 2 := by
  have he : Tas.emittedTicks ((0 : ℚ) + 2 * 1) 2 = 1 := by
    rw [Tas.emittedTicks, if_pos (by norm_num)]
    norm_num
  have hframe : (Tas.runDeltas NumGame
      { Tas.init NumGame 0 with paused := false } [2]).frame = 1 := by
    show (Tas.fixed_update NumGame
      { Tas.init NumGame 0 with paused := false } 2).frame = 1
    have hspec := Tas.fixed_update_record_spec NumGame
      ({ Tas.init NumGame 0 with paused := false } : Tas ℕ ℕ) 2 rfl rfl rfl
    rw [hspec.2.2.2.2.2.1]
    show 0 + Tas.emittedTicks ((0 : ℚ) + 2 * 1) 2 = 1
    rw [he]
  refine ⟨?_, hframe, ?_⟩
  · show (([2] : List ℚ).map (fun δ => δ * 1)).sum = 2 * 1
    norm_num
  · intro h
    rw [hframe] at h
    exact absurd h (by decide)

/-- C2, amended: tick determinism holds when every delta in the
sequence equals the current tick length `d` (the host's fixed cadence, so
the per-call re-recording of `fixed_delta_time` keeps it at `d`): for an
unpaused recording controller with `time_scale = c ≥ 0`, an empty
accumulator and `k * c = N`, feeding `k` deltas of `d` (scaled sum
`N * d`) emits exactly `N` frames, and the leftover fractional time
carried in `acc_delta_time` is `0`. -/
theorem c2_amended_tick_determinism {G S : Type} (T : Tasable G S)
    (s : Tas S G) (d c : ℚ) (k N : ℕ)
    (hd : 0 < d) (hc : 0 ≤ c)
    (hp : s.paused = false) (ha : s.auto_paused = false)
    (hr : s.replay = none) (hf : s.fixed_delta_time = d)
    (ht : s.time_scale = c) (hacc : s.acc_delta_time = 0)
    (hN : (k : ℚ) * c = N) :
    (Tas.runDeltas T s (List.replicate k d)).frame = s.frame + N ∧
    (Tas.runDeltas T s (List.replicate k d)).acc_delta_time = 0 := by
  obtain ⟨F, Q1, Q2, Q3, Q4⟩ := Tas.runDeltas_const T d c hd hc k s hp ha hr
    hf ht (by rw [hacc]) (by rw [hacc]; exact hd)
  rw [hacc] at Q2
  have hQ : (F : ℚ) * d
      + (Tas.runDeltas T s (List.replicate k d)).acc_delta_time
      = (N : ℚ) * d := by
    rw [Q2, ← hN]
    ring
  have heq : ((N : ℚ) - F) * d
      = (Tas.runDeltas T s (List.replicate k d)).acc_delta_time := by
    linear_combination -hQ
  have h2 : 0 ≤ ((N : ℚ) - F) * d := by
    rw [heq]
    exact Q3
  have h3 : ((N : ℚ) - F) * d < d := by
    rw [heq]
    exact Q4
  have hge : (F : ℚ) ≤ N := by nlinarith
  have hlt : (N : ℚ) < F + 1 := by nlinarith
  have hFN : F = N := by
    have hge' : F ≤ N := by exact_mod_cast hge
    have hlt' : N < F + 1 := by exact_mod_cast hlt
    omega
  constructor
  · rw [Q1, hFN]
  · rw [hFN] at hQ
    linarith

/-- Witness for the amended **C2**: tick length `1/2`, `time_scale = 2`,
three deltas of `1/2` (scaled sum `6 * (1/2)`) emit exactly `6` frames and
leave an empty accumulator. -/
theorem c2_amended_tick_determinism_witness :
    (Tas.runDeltas NumGame { Tas.init NumGame 0 with paused := false, fixed_delta_time := 1 / 2, time_scale := 2 } (List.replicate 3 (1 / 2))).frame = 0 + 6 ∧
    (Tas.runDeltas NumGame { Tas.init NumGame 0 with paused := false, fixed_delta_time := 1 / 2, time_scale := 2 } (List.replicate 3 (1 / 2))).acc_delta_time = 0 :=
  c2_amended_tick_determinism NumGame
    { Tas.init NumGame 0 with paused := false, fixed_delta_time := 1 / 2, time_scale := 2 }
    (1 / 2) 2 3 6 (by norm_num) (by norm_num) rfl rfl rfl rfl rfl rfl
    (by norm_num)

theorem Tas.fixed_update_fdt {G S : Type} (T : Tasable G S) (s : Tas S G)
    (δ : ℚ) : (Tas.fixed_update T s δ).fixed_delta_time = δ := by
  by_cases hb : (s.paused || s.auto_paused) = true
  · have hcond : (({ s with fixed_delta_time := δ } : Tas S G).paused
        || ({ s with fixed_delta_time := δ } : Tas S G).auto_paused)
        = true := hb
    rw [Tas.fixed_update]
    simp only [hcond, if_true]
  · have hcond : (({ s with fixed_delta_time := δ } : Tas S G).paused
        || ({ s with fixed_delta_time := δ } : Tas S G).auto_paused)
        = false := by
      simpa using hb
    rw [Tas.fixed_update]
    simp only [hcond, Bool.false_eq_true, if_false]
    show ((Tas.next_frame T)^[Tas.emittedTicks
        (s.acc_delta_time + δ * s.time_scale) δ]
        ({ s with fixed_delta_time := δ } : Tas S G)).fixed_delta_time = δ
    rw [Tas.iterate_next_frame_fdt]

/-- C9, counterexample: `fixed_delta_time` is *not* fixed by the first
`fixed_update` call. Feeding deltas `[1, 3]` to a fresh unpaused
controller: after the first call `fixed_delta_time = 1`, but the second
call re-records `fixed_delta_time = 3` and emits a single tick of length
`3` (total `2` frames), not the `3` further ticks of length `1` the claim
predicts (total `4`). -/
theorem c9_counterexample :
    (Tas.runDeltas NumGame { Tas.init NumGame 0 with paused := false } [1, 3]).fixed_delta_time = 3
    ∧ ¬ (Tas.runDeltas NumGame { Tas.init NumGame 0 with paused := false } [1, 3]).fixed_delta_time = 1
    ∧ (Tas.runDeltas NumGame { Tas.init NumGame 0 with paused := false } [1, 3]).frame = 2
    ∧ ¬ (Tas.runDeltas NumGame { Tas.init NumGame 0 with paused := false } [1, 3]).frame = 4 := by
  have hP := Tas.fixed_update_record_spec NumGame
    ({ Tas.init NumGame 0 with paused := false } : Tas ℕ ℕ) 1 rfl rfl rfl
  have he1 : Tas.emittedTicks ((0 : ℚ) + 1 * 1) 1 = 1 := by
    rw [Tas.emittedTicks, if_pos (by norm_num)]
    norm_num
  have hf1 : (Tas.fixed_update NumGame
      { Tas.init NumGame 0 with paused := false } 1).frame = 1 := by
    rw [hP.2.2.2.2.2.1]
    show 0 + Tas.emittedTicks ((0 : ℚ) + 1 * 1) 1 = 1
    rw [he1]
  have hacc1 : (Tas.fixed_update NumGame
      { Tas.init NumGame 0 with paused := false } 1).acc_delta_time = 0 := by
    rw [hP.2.2.2.2.2.2]
    show (0 : ℚ) + 1 * 1 - (Tas.emittedTicks ((0 : ℚ) + 1 * 1) 1 : ℚ) * 1 = 0
    rw [he1]
    norm_num
  have hts1 : (Tas.fixed_update NumGame
      { Tas.init NumGame 0 with paused := false } 1).time_scale = 1 :=
    hP.2.2.2.1
  have hQ := Tas.fixed_update_record_spec NumGame
    (Tas.fixed_update NumGame { Tas.init NumGame 0 with paused := false } 1)
    3 hP.1 hP.2.1 hP.2.2.1
  have he2 : Tas.emittedTicks ((0 : ℚ) + 3 * 1) 3 = 1 := by
    rw [Tas.emittedTicks, if_pos (by norm_num)]
    norm_num
  have hframe : (Tas.runDeltas NumGame
      { Tas.init NumGame 0 with paused := false } [1, 3]).frame = 2 := by
    show (Tas.fixed_update NumGame (Tas.fixed_update NumGame
      { Tas.init NumGame 0 with paused := false } 1) 3).frame = 2
    rw [hQ.2.2.2.2.2.1, hf1, hacc1, hts1, he2]
  have hfdt : (Tas.runDeltas NumGame
      { Tas.init NumGame 0 with paused := false } [1, 3]).fixed_delta_time
      = 3 := by
    show (Tas.fixed_update NumGame (Tas.fixed_update NumGame
      { Tas.init NumGame 0 with paused := false } 1) 3).fixed_delta_time = 3
    exact Tas.fixed_update_fdt NumGame _ 3
  refine ⟨hfdt, ?_, hframe, ?_⟩
  · intro h
    rw [hfdt] at h
    exact absurd h (by norm_num)
  · intro h
    rw [hframe] at h
    exact absurd h (by decide)

/-- C9, amended: `fixed_delta_time` is discovered from the host's
fixed-update cadence, but it is re-recorded on *every* `fixed_update` call
(even while paused), not only the first; each unpaused recording-mode call
emits ticks whose length is that call's own host delta. -/
theorem c9_amended_fdt_recorded_every_call {G S : Type} (T : Tasable G S)
    (s : Tas S G) (δ : ℚ) :
    (Tas.fixed_update T s δ).fixed_delta_time = δ ∧
    (s.paused = false → s.auto_paused = false → s.replay = none →
      (Tas.fixed_update T s δ).frame
        = s.frame
          + Tas.emittedTicks (s.acc_delta_time + δ * s.time_scale) δ) := by
  refine ⟨Tas.fixed_update_fdt T s δ, fun hp ha hr => ?_⟩
  exact (Tas.fixed_update_record_spec T s δ hp ha hr).2.2.2.2.2.1

/-- Witness for the amended **C9**: a paused controller still re-records
the host delta `5` as `fixed_delta_time`, and an unpaused fresh controller
fed delta `2` emits `emittedTicks (0 + 2 * 1) 2` frames. -/
theorem c9_amended_fdt_recorded_every_call_witness :
    (Tas.fixed_update NumGame (Tas.init NumGame 0) 5).fixed_delta_time = 5
    ∧ (Tas.fixed_update NumGame { Tas.init NumGame 0 with paused := false } 2).frame
      = 0 + Tas.emittedTicks ((0 : ℚ) + 2 * 1) 2 := by
  constructor
  · exact (c9_amended_fdt_recorded_every_call NumGame (Tas.init NumGame 0) 5).1
  · exact (c9_amended_fdt_recorded_every_call NumGame
      { Tas.init NumGame 0 with paused := false } 2).2 rfl rfl rfl

/-! ## Checkpoint store lemmas -/

theorem Tas.load_state_miss {G S : Type} (T : Tasable G S) (s : Tas S G)
    (i : ℕ) (h : s.saved_states[i]? = none) :
    Tas.load_state T s i = { s with replay := none } := by
  rw [Tas.load_state]
  have h' : ({ s with replay := none } : Tas S G).saved_states[i]? = none := h
  simp only [h']

theorem Tas.load_state_hit {G S : Type} (T : Tasable G S) (s : Tas S G)
    (i : ℕ) (st : SaveState S) (h : s.saved_states[i]? = some st) :
    Tas.load_state T s i
      = { s with replay := none, frame := st.frame, inputs := st.inputs, pressed_keys := st.pressed_keys, pressed_buttons := st.pressed_buttons, initial_state := st.initial_state, game := T.load s.game st.state } := by
  rw [Tas.load_state]
  have h' : ({ s with replay := none } : Tas S G).saved_states[i]? = some st := h
  simp only [h']

/-- C3 evaluated at the failing input (the claim is right, the code is
wrong): on a store of size `0` with an active replay, `load_state 5` is not
a no-op — `self.replay.take()` runs before the index check and cancels the
replay, contradicting the function's own doc comment ("If such a state is
not found, nothing happens") — and the `delete_state` branch of the UI
(`Vec::remove`) aborts on the out-of-range index `5`. -/
theorem c3_out_of_range_evaluation :
    Tas.load_state NumGame { Tas.init NumGame 0 with replay := some ⟨0, 0, 0, []⟩ } 5
        = { { Tas.init NumGame 0 with replay := some ⟨0, 0, 0, []⟩ } with replay := none }
    ∧ ¬ Tas.load_state NumGame { Tas.init NumGame 0 with replay := some ⟨0, 0, 0, []⟩ } 5
        = { Tas.init NumGame 0 with replay := some ⟨0, 0, 0, []⟩ }
    ∧ Tas.delete_state { Tas.init NumGame 0 with replay := some ⟨0, 0, 0, []⟩ } 5 = none := by
  refine ⟨rfl, ?_, rfl⟩
  intro h
  have hco := congrArg (fun s => s.replay) h
  exact Option.noConfusion hco

/-- C4, counterexample: two persistence/deserialization failures *are*
raised as aborts rather than returned to a caller: the capture-mode `S`
binding `unwrap`s `save_run`'s result, and `Tas::new` `expect`s the
startup checkpoint-store load. -/
theorem c4_counterexample :
    Tas.handle_event NumGame (Except.error "io error") { Tas.init NumGame 0 with auto_paused := true } (Event.keyDown Key.s) = none
    ∧ Tas.new NumGame 0 (Except.error "corrupt savedstates.json") = none :=
  ⟨rfl, rfl⟩

/-- C4, amended: `load_run` propagates every failure as a result to
its caller without mutating state; `save_state` swallows persistence
failures (the in-memory push happens regardless of the outcome); but the
capture-mode `S` key binding aborts (`unwrap`) when saving the run fails,
and `Tas::new` aborts (`expect`) when the startup checkpoint-store load
fails. -/
theorem c4_amended_error_policy {G S : Type} (T : Tasable G S) :
    (∀ (e : String) (s : Tas S G),
      Tas.load_run T (Except.error e) s = (s, some e))
    ∧ (∀ (o o' : Except String Unit) (s : Tas S G),
      Tas.save_state T o s = Tas.save_state T o' s ∧
      (Tas.save_state T o s).saved_states
        = s.saved_states ++ [{ frame := s.frame, inputs := s.inputs, pressed_keys := s.pressed_keys, pressed_buttons := s.pressed_buttons, initial_state := s.initial_state, state := T.save s.game }])
    ∧ (∀ (e : String) (s : Tas S G), s.auto_paused = true →
      Tas.handle_event T (Except.error e) s (Event.keyDown Key.s) = none)
    ∧ (∀ (g : G) (e : String), Tas.new T g (Except.error e) = none) := by
  refine ⟨fun e s => rfl, fun o o' s => ⟨rfl, rfl⟩, ?_, fun g e => rfl⟩
  intro e s hap
  rw [Tas.handle_event]
  rw [if_neg (by decide : ¬(Event.keyDown Key.s = Event.keyDown Key.lalt))]
  rw [if_neg (by decide : ¬(Event.keyDown Key.s = Event.keyUp Key.lalt))]
  rw [if_pos (show s.auto_paused = true from hap)]

/-- Witness for the amended **C4**: concrete failing outcomes at each of
the four interfaces. -/
theorem c4_amended_error_policy_witness :
    Tas.load_run NumGame (Except.error "nope") (Tas.init NumGame 1)
        = (Tas.init NumGame 1, some "nope")
    ∧ Tas.save_state NumGame (Except.error "disk full") (Tas.init NumGame 1)
        = Tas.save_state NumGame (Except.ok ()) (Tas.init NumGame 1)
    ∧ Tas.handle_event NumGame (Except.error "disk full") { Tas.init NumGame 1 with auto_paused := true } (Event.keyDown Key.s) = none
    ∧ Tas.new NumGame 1 (Except.error "bad json") = none := by
  refine ⟨(c4_amended_error_policy NumGame).1 "nope" (Tas.init NumGame 1),
    ((c4_amended_error_policy NumGame).2.1 (Except.error "disk full")
      (Except.ok ()) (Tas.init NumGame 1)).1,
    (c4_amended_error_policy NumGame).2.2.1 "disk full"
      { Tas.init NumGame 1 with auto_paused := true } rfl,
    (c4_amended_error_policy NumGame).2.2.2 1 "bad json"⟩

/-- C5 (replay exhaustion): whenever `next_frame` runs with an active
replay whose input index is past the end of the log, it sets
`paused = true` and performs no other mutation whatsoever (same game, same
frame counter, same everything). In particular, replaying the 3-entry
one-event-per-frame log `[A-down, A-up, B-down]` for 5 frames applies the
events at frames 0, 1, 2 (observed by a subject that logs the frame index
of every event it receives) and the controller is paused from frame 3 on,
with frames 4 and 5 changing nothing beyond `paused := true`. -/
theorem c5_replay_exhaustion :
    (∀ (G S : Type) (T : Tasable G S) (s : Tas S G) (r : Replay Event),
      s.replay = some r → r.inputs.length ≤ r.input →
      Tas.next_frame T s = { s with paused := true })
    ∧ ((Tas.next_frame LogGame)^[5] (Tas.load_run LogGame (Except.ok ⟨(0, []), [⟨1, [Event.keyDown Key.a]⟩, ⟨1, [Event.keyUp Key.a]⟩, ⟨1, [Event.keyDown Key.b]⟩]⟩) (Tas.init LogGame (0, []))).1).game
        = (3, [(0, Event.keyDown Key.a), (1, Event.keyUp Key.a), (2, Event.keyDown Key.b)])
    ∧ ((Tas.next_frame LogGame)^[5] (Tas.load_run LogGame (Except.ok ⟨(0, []), [⟨1, [Event.keyDown Key.a]⟩, ⟨1, [Event.keyUp Key.a]⟩, ⟨1, [Event.keyDown Key.b]⟩]⟩) (Tas.init LogGame (0, []))).1).paused = true
    ∧ ((Tas.next_frame LogGame)^[5] (Tas.load_run LogGame (Except.ok ⟨(0, []), [⟨1, [Event.keyDown Key.a]⟩, ⟨1, [Event.keyUp Key.a]⟩, ⟨1, [Event.keyDown Key.b]⟩]⟩) (Tas.init LogGame (0, []))).1)
        = { ((Tas.next_frame LogGame)^[3] (Tas.load_run LogGame (Except.ok ⟨(0, []), [⟨1, [Event.keyDown Key.a]⟩, ⟨1, [Event.keyUp Key.a]⟩, ⟨1, [Event.keyDown Key.b]⟩]⟩) (Tas.init LogGame (0, []))).1) with paused := true } := by
  refine ⟨?_, rfl, rfl, rfl⟩
  intro G S T s r hrep hpast
  exact Tas.next_frame_exhaust T s r hrep (List.getElem?_eq_none hpast)

/-- Witness for **C5**: a controller whose replay cursor points past the
end of an empty log is paused by `next_frame`, everything else unchanged. -/
theorem c5_replay_exhaustion_witness :
    Tas.next_frame NumGame { Tas.init NumGame 0 with replay := some ⟨0, 5, 0, []⟩ }
      = { { Tas.init NumGame 0 with replay := some ⟨0, 5, 0, []⟩ } with paused := true } :=
  c5_replay_exhaustion.1 ℕ ℕ NumGame
    { Tas.init NumGame 0 with replay := some ⟨0, 5, 0, []⟩ }
    ⟨0, 5, 0, []⟩ rfl (by decide)

/-- C6 (checkpoint fidelity): if the subject's `load ∘ save` is the
identity at the current game state, then `save_state` followed immediately
by `load_state` on the newest index leaves the game state, the frame
counter, the input log, `initial_state`, and both held-input sets exactly
as they were before the save. -/
theorem c6_checkpoint_fidelity {G S : Type} (T : Tasable G S)
    (s : Tas S G) (o : Except String Unit)
    (hload : T.load s.game (T.save s.game) = s.game) :
    let s2 := Tas.load_state T (Tas.save_state T o s)
      ((Tas.save_state T o s).saved_states.length - 1)
    s2.game = s.game ∧ s2.frame = s.frame ∧ s2.inputs = s.inputs ∧
    s2.initial_state = s.initial_state ∧
    s2.pressed_keys = s.pressed_keys ∧
    s2.pressed_buttons = s.pressed_buttons := by
  intro s2
  have hlen : (Tas.save_state T o s).saved_states.length - 1
      = s.saved_states.length := by
    show (s.saved_states ++ [_]).length - 1 = s.saved_states.length
    simp
  have hget : (Tas.save_state T o s).saved_states[(Tas.save_state T o s).saved_states.length - 1]?
      = some ({ frame := s.frame, inputs := s.inputs, pressed_keys := s.pressed_keys, pressed_buttons := s.pressed_buttons, initial_state := s.initial_state, state := T.save s.game } : SaveState S) := by
    rw [hlen]
    show (s.saved_states ++ [_])[s.saved_states.length]? = _
    rw [List.getElem?_concat_length]
  have h2 := Tas.load_state_hit T (Tas.save_state T o s)
    ((Tas.save_state T o s).saved_states.length - 1) _ hget
  show s2.game = s.game ∧ _
  rw [show s2 = _ from h2]
  exact ⟨hload, rfl, rfl, rfl, rfl, rfl⟩

/-- Witness for **C6**: concrete save-then-load round trip on a fresh
controller. -/
theorem c6_checkpoint_fidelity_witness :
    (Tas.load_state NumGame (Tas.save_state NumGame (Except.ok ()) (Tas.init NumGame 42)) ((Tas.save_state NumGame (Except.ok ()) (Tas.init NumGame 42)).saved_states.length - 1)).game = 42
    ∧ (Tas.load_state NumGame (Tas.save_state NumGame (Except.ok ()) (Tas.init NumGame 42)) ((Tas.save_state NumGame (Except.ok ()) (Tas.init NumGame 42)).saved_states.length - 1)).frame = 0 := by
  have h := c6_checkpoint_fidelity NumGame (Tas.init NumGame 42)
    (Except.ok ()) rfl
  exact ⟨h.1, h.2.1⟩

/-- C7 (`load_run` postcondition): on success the subject is loaded
with the file's `initial_state`, the frame counter is `0`, the queue, the
live log and both held-input sets are empty, and a fresh replay cursor is
installed at input index `0`, frame `0`, with `next_input` equal to the
first log entry's frame count (`0` for an empty log); on failure the error
is returned and the controller state is unchanged. -/
theorem c7_load_run_postcondition {G S : Type} (T : Tasable G S)
    (parsed : Except String (SavedTas S)) (s : Tas S G) :
    (∀ sv : SavedTas S, parsed = Except.ok sv →
      (Tas.load_run T parsed s).2 = none ∧
      (Tas.load_run T parsed s).1.game = T.load s.game sv.initial_state ∧
      (Tas.load_run T parsed s).1.frame = 0 ∧
      (Tas.load_run T parsed s).1.queued_inputs = [] ∧
      (Tas.load_run T parsed s).1.inputs = [] ∧
      (Tas.load_run T parsed s).1.pressed_keys = ∅ ∧
      (Tas.load_run T parsed s).1.pressed_buttons = ∅ ∧
      (Tas.load_run T parsed s).1.replay
        = some ({ frame := 0, input := 0, next_input := ((sv.inputs.head?).map (fun i => i.frames)).getD 0, inputs := sv.inputs } : Replay Event))
    ∧ (∀ e : String, parsed = Except.error e →
      Tas.load_run T parsed s = (s, some e)) := by
  constructor
  · rintro sv rfl
    exact ⟨rfl, rfl, rfl, rfl, rfl, rfl, rfl, rfl⟩
  · rintro e rfl
    rfl

/-- Witness for **C7**: a concrete successful load (empty log, so
`next_input = 0`) and a concrete failed load. -/
theorem c7_load_run_postcondition_witness :
    (Tas.load_run NumGame (Except.ok ⟨5, []⟩) (Tas.init NumGame 0)).1.game = 5
    ∧ (Tas.load_run NumGame (Except.ok ⟨5, []⟩) (Tas.init NumGame 0)).1.replay
        = some ⟨0, 0, 0, []⟩
    ∧ Tas.load_run NumGame (Except.error "gone") (Tas.init NumGame 0)
        = (Tas.init NumGame 0, some "gone") := by
  refine ⟨?_, ?_, ?_⟩
  · exact ((c7_load_run_postcondition NumGame (Except.ok ⟨5, []⟩)
      (Tas.init NumGame 0)).1 ⟨5, []⟩ rfl).2.1
  · exact ((c7_load_run_postcondition NumGame (Except.ok ⟨5, []⟩)
      (Tas.init NumGame 0)).1 ⟨5, []⟩ rfl).2.2.2.2.2.2.2
  · exact (c7_load_run_postcondition NumGame (Except.error "gone")
      (Tas.init NumGame 0)).2 "gone" rfl

/-- C10 (implicit): while a replay is active and capture mode is off,
`handle_event` discards every incoming event completely — nothing is
queued, recorded, or forwarded, no held set changes, no abort is possible
— except that the LAlt key still toggles `auto_paused`: the resulting
state is exactly the input state with `auto_paused` set iff the event is
LAlt-down. -/
theorem c10_replay_event_discard {G S : Type} (T : Tasable G S)
    (o : Except String Unit) (s : Tas S G) (e : Event)
    (hr : s.replay.isSome = true) (ha : s.auto_paused = false) :
    Tas.handle_event T o s e
      = some { s with auto_paused := decide (e = Event.keyDown Key.lalt) } := by
  by_cases h1 : e = Event.keyDown Key.lalt
  · subst h1
    rfl
  · by_cases h2 : e = Event.keyUp Key.lalt
    · subst h2
      obtain ⟨g, sui, ts, p, ap, fdt, ss, fr, inp, sf, rep, ini, acc, qi, pk, pb⟩ := s
      have ha' : ap = false := ha
      subst ha'
      rcases rep with _ | r
      · exact absurd hr (by simp)
      · rfl
    · obtain ⟨g, sui, ts, p, ap, fdt, ss, fr, inp, sf, rep, ini, acc, qi, pk, pb⟩ := s
      have ha' : ap = false := ha
      subst ha'
      rcases rep with _ | r
      · exact absurd hr (by simp)
      · unfold Tas.handle_event
        simp only [if_neg h1, if_neg h2]
        rw [decide_eq_false h1]
        rfl

/-- Witness for **C10**: during a replay, a would-be capture command
(`S`-down) with a failing write outcome is discarded without any effect
(and in particular without the abort the capture binding would cause). -/
theorem c10_replay_event_discard_witness :
    Tas.handle_event NumGame (Except.error "io") { Tas.init NumGame 3 with replay := some ⟨0, 0, 0, []⟩ } (Event.keyDown Key.s)
      = some { { Tas.init NumGame 3 with replay := some ⟨0, 0, 0, []⟩ } with auto_paused := decide ((Event.keyDown Key.s) = Event.keyDown Key.lalt) } :=
  c10_replay_event_discard NumGame (Except.error "io")
    { Tas.init NumGame 3 with replay := some ⟨0, 0, 0, []⟩ }
    (Event.keyDown Key.s) rfl rfl

/-! ## The coalescing invariant -/

theorem Tas.iterate_inv {α : Type _} (f : α → α) (P : α → Prop)
    (hf : ∀ a, P a → P (f a)) : ∀ (n : ℕ) (a : α), P a → P (f^[n] a) := by
  intro n
  induction n with
  | zero => intro a h; exact h
  | succ n ih =>
    intro a h
    rw [Function.iterate_succ_apply]
    exact ih _ (hf a h)

theorem Tas.LogInv_save_state {G S : Type} (T : Tasable G S)
    (o : Except String Unit) (s : Tas S G) (h : Tas.LogInv s) :
    Tas.LogInv (Tas.save_state T o s) := by
  refine ⟨h.1, ?_⟩
  intro st hst
  rcases List.mem_append.1 hst with h1 | h1
  · exact h.2 st h1
  · simp at h1
    subst h1
    exact h.1

theorem Tas.LogInv_load_state {G S : Type} (T : Tasable G S) (s : Tas S G)
    (i : ℕ) (h : Tas.LogInv s) : Tas.LogInv (Tas.load_state T s i) := by
  rcases hget : s.saved_states[i]? with _ | st
  · rw [Tas.load_state_miss T s i hget]
    exact h
  · rw [Tas.load_state_hit T s i st hget]
    exact ⟨h.2 st (List.getElem?_mem hget), h.2⟩

theorem Tas.LogInv_load_run {G S : Type} (T : Tasable G S)
    (p : Except String (SavedTas S)) (s : Tas S G) (h : Tas.LogInv s) :
    Tas.LogInv ((Tas.load_run T p s).1) := by
  rcases p with e | sv
  · exact h
  · exact ⟨List.chain'_nil, h.2⟩

theorem Tas.LogInv_next_frame {G S : Type} (T : Tasable G S) (s : Tas S G)
    (h : Tas.LogInv s) : Tas.LogInv (Tas.next_frame T s) := by
  rcases hrep : s.replay with _ | r
  · rw [Tas.next_frame_record T s hrep]
    exact ⟨Tas.recordStep_chain _ _ h.1, h.2⟩
  · rcases hx : r.inputs[r.input]? with _ | fi
    · rw [Tas.next_frame_exhaust T s r hrep hx]
      exact h
    · rw [Tas.next_frame_replay T s r fi hrep hx]
      exact h

theorem Tas.LogInv_fixed_update {G S : Type} (T : Tasable G S)
    (s : Tas S G) (δ : ℚ) (h : Tas.LogInv s) :
    Tas.LogInv (Tas.fixed_update T s δ) := by
  have h0 : Tas.LogInv ({ s with fixed_delta_time := δ } : Tas S G) := h
  rw [Tas.fixed_update]
  by_cases hb : (({ s with fixed_delta_time := δ } : Tas S G).paused
      || ({ s with fixed_delta_time := δ } : Tas S G).auto_paused) = true
  · simp only [hb, if_true]
    exact h0
  · have hb' : (({ s with fixed_delta_time := δ } : Tas S G).paused
        || ({ s with fixed_delta_time := δ } : Tas S G).auto_paused)
        = false := by
      simpa using hb
    simp only [hb', Bool.false_eq_true, if_false]
    exact Tas.iterate_inv (Tas.next_frame T) Tas.LogInv
      (fun a ha => Tas.LogInv_next_frame T a ha) _ _ h0

theorem Tas.LogInv_delete_state {G S : Type} (s : Tas S G) (i : ℕ)
    (s' : Tas S G) (hdel : Tas.delete_state s i = some s')
    (h : Tas.LogInv s) : Tas.LogInv s' := by
  rw [Tas.delete_state] at hdel
  by_cases hi : i < s.saved_states.length
  · rw [if_pos hi] at hdel
    injection hdel with hdel
    subst hdel
    refine ⟨h.1, ?_⟩
    intro st hst
    exact h.2 st ((List.eraseIdx_sublist s.saved_states i).subset hst)
  · rw [if_neg hi] at hdel
    exact absurd hdel (by simp)

theorem Tas.LogInv_handle_event {G S : Type} (T : Tasable G S)
    (o : Except String Unit) (s : Tas S G) (e : Event) (s' : Tas S G)
    (hh : Tas.handle_event T o s e = some s') (h : Tas.LogInv s) :
    Tas.LogInv s' := by
  unfold Tas.handle_event at hh
  dsimp only at hh
  repeat' split at hh
  all_goals
    first
      | (injection hh with hh
         subst hh
         first
           | exact h
           | exact Tas.LogInv_save_state T o _ h
           | exact Tas.LogInv_load_state T _ _ h)
      | injection hh

/-- C8 (coalescing invariant): in every controller state reachable
through the public operations from a fresh controller, the recorded input
log has no two consecutive entries with identical `inputs` (and the same
holds inside every stored checkpoint); the record step of `next_frame`
produces exactly `recordStep` of the drained queue, which extends the
newest entry by one frame precisely when the drained inputs equal its
`inputs` and otherwise appends a fresh `frames = 1` entry; and the
invariant is preserved by `load_state` and `load_run`. -/
theorem c8_coalescing_invariant {G S : Type} (T : Tasable G S) :
    (∀ s : Tas S G, Tas.Reachable T s →
      NoDupRuns s.inputs ∧ ∀ st ∈ s.saved_states, NoDupRuns st.inputs)
    ∧ (∀ s : Tas S G, s.replay = none →
      (Tas.next_frame T s).inputs = Tas.recordStep s.inputs s.queued_inputs)
    ∧ (∀ (l : List (FrameInput Event)) (last : FrameInput Event)
        (tick : List Event),
      (last.inputs = tick →
        Tas.recordStep (l ++ [last]) tick
          = l ++ [{ frames := last.frames + 1, inputs := last.inputs }])
      ∧ (last.inputs ≠ tick →
        Tas.recordStep (l ++ [last]) tick
          = (l ++ [last]) ++ [{ frames := 1, inputs := tick }]))
    ∧ (∀ (s : Tas S G) (i : ℕ),
      Tas.LogInv s → Tas.LogInv (Tas.load_state T s i))
    ∧ (∀ (s : Tas S G) (p : Except String (SavedTas S)),
      Tas.LogInv s → Tas.LogInv ((Tas.load_run T p s).1)) := by
  refine ⟨?_, ?_, ?_, fun s i h => Tas.LogInv_load_state T s i h,
    fun s p h => Tas.LogInv_load_run T p s h⟩
  · intro s hs
    induction hs with
    | init g => exact ⟨List.chain'_nil, by simp [Tas.init]⟩
    | handle s s' o e hs hsome ih =>
      exact Tas.LogInv_handle_event T o s e s' hsome ih
    | frame s hs ih => exact Tas.LogInv_next_frame T s ih
    | fixed s δ hs ih => exact Tas.LogInv_fixed_update T s δ ih
    | save s o hs ih => exact Tas.LogInv_save_state T o s ih
    | load s i hs ih => exact Tas.LogInv_load_state T s i ih
    | run_load s p hs ih => exact Tas.LogInv_load_run T p s ih
    | del s s' i hs hdel ih => exact Tas.LogInv_delete_state s i s' hdel ih
  · intro s h
    rw [Tas.next_frame_record T s h]
  · intro l last tick
    exact ⟨fun hEq => Tas.recordStep_extend l last tick hEq,
      fun hne => Tas.recordStep_push l last tick hne⟩

/-- Witness for **C8**: the invariant at the reachable fresh controller. -/
theorem c8_coalescing_invariant_witness :
    NoDupRuns (Tas.init NumGame 0).inputs
    ∧ ∀ st ∈ (Tas.init NumGame 0).saved_states, NoDupRuns st.inputs :=
  (c8_coalescing_invariant NumGame).1 (Tas.init NumGame 0)
    (Tas.Reachable.init 0)
